import Mathlib

/-!
Shallow embedding of `src/spiketoolkit/sortingcomponents/detection.py`.

The module has two functions:

* `detect_spikes` (the orchestrator): resolves the channel set and frame range,
  validates channels, decides between parallel and sequential dispatch based on
  `recording.check_if_dumpable()`, runs the per-channel worker, and aggregates
  the results into a `NumpySortingExtractor` with per-unit properties.
* `_detect_and_align_peaks_single_channel` (the worker): median-based threshold,
  `np.where` crossing extraction, `np.diff`-based segmentation, optional
  windowed peak alignment with zero padding at trace boundaries.

Samples are modelled as rationals (`ℚ`).  `np.median` of an empty array yields
NaN in numpy; this is modelled by `Option ℚ` with `none` for NaN (every
comparison against NaN is false).  External library calls that the repository
merely consumes are modelled by their documented behaviour:
`scipy.signal.resample` is passed in as an uninterpreted function parameter,
and the `spikeextractors` recording / sorting collaborators are modelled as
structures (`Recording`, the fields of `DetectionResult`).
-/

namespace SpikeToolkit

/-- The constant `0.6745` dividing the absolute trace inside the median
(threshold estimation in `_detect_and_align_peaks_single_channel`). -/
def madConst : ℚ := 6745 / 10000

/-- Python `int(...)` applied to a float: truncation toward zero. -/
def pyInt (q : ℚ) : ℤ := Int.tdiv q.num q.den

/-- Python slice `l[a:b]` for `0 ≤ a ≤ b` (clamped at the list end, as in
Python). -/
def pySlice {α : Type} (l : List α) (a b : ℕ) : List α := (l.drop a).take (b - a)

/-- Behaviour of `np.median`: sort ascending, take the middle element (odd
length) or the mean of the two middle elements (even length).  On an empty
array numpy emits a RuntimeWarning and returns NaN, modelled as `none`. -/
def np_median (l : List ℚ) : Option ℚ :=
  if l = [] then none
  else
    let s := List.insertionSort (· ≤ ·) l
    let n := l.length
    if n % 2 = 1 then some (s.getD (n / 2) 0)
    else some ((s.getD (n / 2 - 1) 0 + s.getD (n / 2) 0) / 2)

/-- Behaviour of `np.argmin`: index of the first occurrence of the minimum
(0 on the empty array, where numpy would raise; callers guard emptiness). -/
def np_argmin : List ℚ → ℕ
  | [] => 0
  | [_] => 0
  | x :: y :: xs =>
      let j := np_argmin (y :: xs)
      if (y :: xs).getD j 0 < x then j + 1 else 0

/-- Behaviour of `np.min` (0 on the empty array, where numpy would raise). -/
def np_min : List ℚ → ℚ
  | [] => 0
  | [x] => x
  | x :: y :: xs => min x (np_min (y :: xs))

/-- Behaviour of `np.argmax`: index of the first occurrence of the maximum. -/
def np_argmax : List ℚ → ℕ
  | [] => 0
  | [_] => 0
  | x :: y :: xs =>
      let j := np_argmax (y :: xs)
      if x < (y :: xs).getD j 0 then j + 1 else 0

/-- Behaviour of `np.max` (0 on the empty array, where numpy would raise). -/
def np_max : List ℚ → ℚ
  | [] => 0
  | [x] => x
  | x :: y :: xs => max x (np_max (y :: xs))

/-- Behaviour of `np.diff` on the (ascending) crossing-index array:
consecutive differences, computed in `ℤ`. -/
def np_diff (l : List ℕ) : List ℤ := List.zipWith (fun (a b : ℕ) => (b : ℤ) - (a : ℤ)) l l.tail

/-- Behaviour of `np.linspace a b num` (endpoint-inclusive linear grid; for
`num = 1` numpy returns `[a]`, matching division by zero being zero in `ℚ`). -/
def np_linspace (a b : ℚ) (num : ℕ) : List ℚ :=
  (List.range num).map (fun i => a + (b - a) * i / ((num : ℚ) - 1))

/-- Behaviour of `np.unique`: ascending sorted distinct values. -/
def np_unique {ι : Type} [LinearOrder ι] [DecidableEq ι] (l : List ι) : List ι :=
  (List.insertionSort (· ≤ ·) l).dedup

/-- Threshold estimation and crossing extraction of
`_detect_and_align_peaks_single_channel` (lines 115-123): per detection sign,
`thresh = ±n_std * np.median(np.abs(trace) / 0.6745)` and
`idx_spikes = np.where(...)[0]`.  A `none` median models the NaN threshold of
an empty trace, for which every numpy comparison is false. -/
def crossingIndices (trace : List ℚ) (nStd : ℚ) (sign : ℤ) : List ℕ :=
  match np_median (trace.map (fun x => |x| / madConst)) with
  | none => []
  | some m =>
      if sign = -1 then
        (List.range trace.length).filter (fun i => decide (trace.getD i 0 < -(nStd * m)))
      else if sign = 1 then
        (List.range trace.length).filter (fun i => decide (nStd * m < trace.getD i 0))
      else
        (List.range trace.length).filter
          (fun i => decide (nStd * m < trace.getD i 0 ∨ trace.getD i 0 < -(nStd * m)))

/-- Segmentation loop of `_detect_and_align_peaks_single_channel` (lines
124-130): iterate `i_t` over `intervals = np.diff(idx_spikes)` and keep
`idx_spikes[i_t]` whenever `intervals[i_t] > min_diff_samples` or `i_t` is the
last interval position. -/
def selectAnchors (idxs : List ℕ) (minDiff : ℤ) : List ℕ :=
  let intervals := np_diff idxs
  ((List.range intervals.length).filter
      (fun i => decide (minDiff < intervals.getD i 0 ∨ i = intervals.length - 1))).map
    (fun i => idxs.getD i 0)

/-- The window conditional of the `align` branch (lines 133-145).  The three
Python branches use strict comparisons; `none` is the fall-through where no
branch applies (exactly when `idx - pad = 0` with `idx + pad ≤ len`, or
`idx + pad = len` with `idx - pad ≥ 0`) and the locals `spike` / `t_spike`
are not rebound on this iteration.  Whether the fall-through leaves a stale
window in scope or hits an unbound local is decided by the loop
(`alignLoop`), which threads those locals. -/
def extractWindow (trace : List ℚ) (idx pad : ℕ) : Option (List ℚ × List ℚ) :=
  let n : ℤ := trace.length
  if 0 < (idx : ℤ) - (pad : ℤ) ∧ (idx : ℤ) + (pad : ℤ) < n then
    some (pySlice trace (idx - pad) (idx + pad),
          (List.range' (idx - pad) (pad + pad)).map (fun i : ℕ => (i : ℚ)))
  else if (idx : ℤ) - (pad : ℤ) < 0 then
    some (List.replicate (pad - idx) 0 ++ trace.take (idx + pad),
          List.replicate (pad - idx) 0 ++ (List.range (idx + pad)).map (fun i : ℕ => (i : ℚ)))
  else if n < (idx : ℤ) + (pad : ℤ) then
    some (trace.drop (idx - pad) ++ List.replicate (idx + pad - trace.length) 0,
          (List.range' (idx - pad) (trace.length - (idx - pad))).map (fun i : ℕ => (i : ℚ))
            ++ List.replicate (idx + pad - trace.length) 0)
  else none

/-- One aligned event computed from the window variables currently in scope
(lines 147-165): optional upsampling via `scipy.signal.resample` (an external
library call, passed in as `resample`) with a matching `np.linspace` time
axis, then the sign-dependent extremum search; the event time is `int(...)`
of the paired time-axis value and the amplitude is the computed peak value.
The `none` result models `np.argmin` / `np.argmax` raising on an empty
window. -/
def alignWindowEvent (resample : List ℚ → ℕ → List ℚ) (sign : ℤ)
    (upsample : ℕ) (spike tSpike : List ℚ) : Option (ℤ × ℚ) :=
  let (spikeUp, tSpikeUp) :=
    if 1 < upsample then
      let su := resample spike (upsample * spike.length)
      (su, np_linspace (tSpike.getD 0 0) (tSpike.getD (tSpike.length - 1) 0) su.length)
    else (spike, tSpike)
  if spikeUp = [] then none
  else
    let (peakIdx, peakVal) :=
      if sign = -1 then (np_argmin spikeUp, np_min spikeUp)
      else if sign = 1 then (np_argmax spikeUp, np_max spikeUp)
      else (np_argmax (spikeUp.map (fun x => |x|)), np_max (spikeUp.map (fun x => |x|)))
    some (pyInt (tSpikeUp.getD peakIdx 0), peakVal)

/-- The `align` branch of the anchor loop (lines 132-165), threading the
Python function locals `spike` / `t_spike` across iterations as the state
argument: a matching window branch rebinds them, the fall-through leaves them
at the previous iteration's value, so a later fall-through anchor silently
reuses the stale window; only a fall-through while they were never bound
raises `UnboundLocalError`, modelled by `none` (as does the empty-window
`np.argmin` raise inside an iteration). -/
def alignLoop (resample : List ℚ → ℕ → List ℚ) (trace : List ℚ) (sign : ℤ)
    (pad upsample : ℕ) :
    Option (List ℚ × List ℚ) → List ℕ → Option (List (ℤ × ℚ))
  | _, [] => some []
  | st, idx :: rest =>
    match (match extractWindow trace idx pad with
           | some wt => some wt
           | none => st) with
    | none => none
    | some (spike, tSpike) =>
      match alignWindowEvent resample sign upsample spike tSpike with
      | none => none
      | some ev =>
        (alignLoop resample trace sign pad upsample (some (spike, tSpike)) rest).map
          (fun evs => ev :: evs)

/-- The value of the Python locals `spike` / `t_spike` after the loop has
processed the given anchors, starting from the given state: each anchor whose
window branch applies rebinds them, a fall-through keeps the previous
value. -/
def windowInScope (trace : List ℚ) (pad : ℕ) :
    Option (List ℚ × List ℚ) → List ℕ → Option (List ℚ × List ℚ)
  | st, [] => st
  | st, idx :: rest =>
    windowInScope trace pad
      (match extractWindow trace idx pad with
       | some wt => some wt
       | none => st) rest

/-- Body of `_detect_and_align_peaks_single_channel` after trace extraction:
threshold and crossings, segmentation, then either the alignment loop (whose
unhandled Python exceptions, modelled `none`, abort the whole channel) or the
raw anchor/value events, each labelled with the channel. -/
def detectAlignTrace {ι : Type} (resample : List ℚ → ℕ → List ℚ) (channel : ι)
    (trace : List ℚ) (nStd : ℚ) (sign : ℤ) (pad upsample : ℕ) (minDiff : ℤ)
    (align : Bool) : Option (List ℤ × List ℚ × List ι) :=
  let idxSpikes := crossingIndices trace nStd sign
  let anchors := selectAnchors idxSpikes minDiff
  if align then
    (alignLoop resample trace sign pad upsample none anchors).map
      (fun evs => (evs.map Prod.fst, evs.map Prod.snd, evs.map (fun _ => channel)))
  else
    some (anchors.map (fun i : ℕ => (i : ℤ)), anchors.map (fun i => trace.getD i 0),
          anchors.map (fun _ => channel))

/-- Model of the `RecordingExtractor` collaborator: channel enumeration, full
per-channel traces (sliced by `get_traces`), sampling frequency, frame count
and the `check_if_dumpable` capability. -/
structure Recording (ι : Type) where
  channelIds : List ι
  traces : ι → List ℚ
  samplingFrequency : ℚ
  numFrames : ℕ
  dumpable : Bool

/-- Model of `recording.get_traces(channel_ids=ch, start_frame, end_frame)`. -/
def Recording.getTraces {ι : Type} (rec : Recording ι) (ch : ι)
    (startFrame endFrame : ℕ) : List ℚ :=
  ((rec.traces ch).drop startFrame).take (endFrame - startFrame)

/-- Model of `recording.make_serialized_dict()`: the spec guarantees the
descriptor reconstructs an equivalent read-only handle, so serialization is
the identity on the recording model. -/
def make_serialized_dict {ι : Type} (rec : Recording ι) : Recording ι := rec

/-- Model of `se.load_extractor_from_dict`. -/
def load_extractor_from_dict {ι : Type} (d : Recording ι) : Recording ι := d

/-- The full worker `_detect_and_align_peaks_single_channel`: extract the
trace for the channel and frame range, then detect and align. -/
def detectAndAlignPeaksSingleChannel {ι : Type} (resample : List ℚ → ℕ → List ℚ)
    (rec : Recording ι) (channel : ι) (nStd : ℚ) (sign : ℤ) (pad upsample : ℕ)
    (minDiff : ℤ) (align : Bool) (startFrame endFrame : ℕ) :
    Option (List ℤ × List ℚ × List ι) :=
  detectAlignTrace resample channel (rec.getTraces channel startFrame endFrame)
    nStd sign pad upsample minDiff align

/-- Model of `NumpySortingExtractor.get_unit_spike_train(u)` after
`set_times_labels`: the stored times whose label equals `u`, in storage
order. -/
def unitSpikeTrain {ι : Type} [DecidableEq ι] (times : List ℤ) (labels : List ι)
    (u : ι) : List ℤ :=
  ((times.zip labels).filter (fun p => decide (p.2 = u))).map Prod.fst

/-- Errors of `detect_spikes`: the failed channel-validation assert, and a
worker exception (the `UnboundLocalError` of the window fall-through)
propagating out of the channel loop. -/
inductive DetectError : Type
  | invalidInput : DetectError
  | channelFailure : DetectError
deriving DecidableEq

/-- The aggregate output of `detect_spikes`: the flat spike times and labels
given to `set_times_labels`, and for each unit id (in `np.unique` order) the
`channel`, `spike_amplitude` and `spike_rate` properties set by the final
loop.  A `none` amplitude models `np.median` of an empty array (NaN). -/
structure DetectionResult (ι : Type) where
  times : List ℤ
  labels : List ι
  unitProps : List (ι × ι × Option ℚ × ℚ)
  warning : Bool
deriving DecidableEq

/-- Dispatch and aggregation of `detect_spikes` after channel validation
(lines 60-103): the dumpable / `n_jobs` decision (with the printed fallback
warning modelled as the `warning` flag), the parallel branch working on the
reconstructed serialized handle, the sequential branch working on the live
recording, then `set_times_labels` and the per-unit property loop, whose
`spike_amplitude` indexes the per-requested-channel amplitude list by the
unit enumeration position `i_u`. -/
def detectSpikesDispatch {ι : Type} [LinearOrder ι] [DecidableEq ι]
    (resample : List ℚ → ℕ → List ℚ) (rec : Recording ι) (chs : List ι)
    (detectThreshold : ℚ) (nPad upsample : ℕ) (sign : ℤ) (minDiff : ℤ)
    (align : Bool) (startFrame endFrame : ℕ) (nJobs : ℤ) :
    Except DetectError (DetectionResult ι) :=
  let nJobsEff : ℤ := if rec.dumpable = false ∧ 1 < nJobs then 0 else nJobs
  let warn : Bool := decide (rec.dumpable = false ∧ 1 < nJobs)
  let recArg : Recording ι :=
    if rec.dumpable then load_extractor_from_dict (make_serialized_dict rec) else rec
  let outs? :=
    if 1 < nJobsEff then
      chs.mapM (fun ch => detectAndAlignPeaksSingleChannel resample recArg ch
        detectThreshold sign nPad upsample minDiff align startFrame endFrame)
    else
      chs.mapM (fun ch => detectAndAlignPeaksSingleChannel resample rec ch
        detectThreshold sign nPad upsample minDiff align startFrame endFrame)
  match outs? with
  | none => Except.error DetectError.channelFailure
  | some outs =>
      let spikeAmps := outs.map (fun o => o.2.1)
      let timesFlat := (outs.map (fun o => o.1)).flatten
      let labelsFlat := (outs.map (fun o => o.2.2)).flatten
      let duration : ℚ := ((endFrame - startFrame : ℕ) : ℚ) / rec.samplingFrequency
      let unitIds := np_unique labelsFlat
      Except.ok
        { times := timesFlat
          labels := labelsFlat
          unitProps := unitIds.enum.map (fun p =>
            (p.2, p.2, np_median (spikeAmps.getD p.1 []),
             ((unitSpikeTrain timesFlat labelsFlat p.2).length : ℚ) / duration))
          warning := warn }

/-- The orchestrator `detect_spikes` (lines 8-103): channel resolution and
validation (the failed assert modelled as `InvalidInput`), then dispatch and
aggregation. -/
def detect_spikes {ι : Type} [LinearOrder ι] [DecidableEq ι]
    (resample : List ℚ → ℕ → List ℚ) (rec : Recording ι)
    (channelIds? : Option (List ι)) (detectThreshold : ℚ) (nPadMs : ℚ)
    (upsample : ℕ) (sign : ℤ) (minDiff : ℤ) (align : Bool)
    (startFrame? endFrame? : Option ℕ) (nJobs : ℤ) :
    Except DetectError (DetectionResult ι) :=
  let nPad := (pyInt (nPadMs * rec.samplingFrequency / 1000)).toNat
  let startFrame := startFrame?.getD 0
  let endFrame := endFrame?.getD rec.numFrames
  match channelIds? with
  | some cs =>
      if cs.all (fun c => decide (c ∈ rec.channelIds)) then
        detectSpikesDispatch resample rec cs detectThreshold nPad upsample sign
          minDiff align startFrame endFrame nJobs
      else Except.error DetectError.invalidInput
  | none =>
      detectSpikesDispatch resample rec rec.channelIds detectThreshold nPad
        upsample sign minDiff align startFrame endFrame nJobs

/-! Helper lemmas about the numpy models. -/

theorem alignLoop_spec (resample : List ℚ → ℕ → List ℚ) (trace : List ℚ)
    (sign : ℤ) (pad upsample : ℕ) :
    ∀ (anchors : List ℕ) (st : Option (List ℚ × List ℚ)) (evs : List (ℤ × ℚ)),
      alignLoop resample trace sign pad upsample st anchors = some evs →
      evs.length = anchors.length ∧
        ∀ k (hk : k < anchors.length) (hk2 : k < evs.length),
          ∃ w tAx : List ℚ,
            windowInScope trace pad st (anchors.take (k + 1)) = some (w, tAx) ∧
            alignWindowEvent resample sign upsample w tAx = some (evs.get ⟨k, hk2⟩) := by
  intro anchors
  induction anchors with
  | nil =>
    intro st evs h
    rw [alignLoop] at h
    simp only [Option.some.injEq] at h
    subst h
    refine ⟨rfl, ?_⟩
    intro k hk
    exact absurd hk (by simp)
  | cons a rest ih =>
    intro st evs h
    rw [alignLoop] at h
    split at h
    · exact absurd h (by simp)
    · rename_i sp tsp heff
      split at h
      · exact absurd h (by simp)
      · rename_i ev hev
        obtain ⟨evs', hrest, hcons⟩ := Option.map_eq_some'.mp h
        subst hcons
        obtain ⟨hlen', hpt'⟩ := ih (some (sp, tsp)) evs' hrest
        refine ⟨by simp [hlen'], ?_⟩
        intro k hk hk2
        cases k with
        | zero =>
          refine ⟨sp, tsp, ?_, ?_⟩
          · rw [List.take_succ_cons, List.take_zero, windowInScope, heff, windowInScope]
          · simpa using hev
        | succ k =>
          have hk' : k < rest.length := by simpa using hk
          have hk2' : k < evs'.length := by simpa using hk2
          obtain ⟨w, tAx, hwin, hev'⟩ := hpt' k hk' hk2'
          refine ⟨w, tAx, ?_, ?_⟩
          · rw [List.take_succ_cons, windowInScope, heff]
            exact hwin
          · simpa using hev'

theorem windowInScope_some (trace : List ℚ) (pad : ℕ) :
    ∀ (l : List ℕ) (st : Option (List ℚ × List ℚ)) (wt : List ℚ × List ℚ),
      windowInScope trace pad st l = some wt →
      (∃ idx ∈ l, extractWindow trace idx pad = some wt) ∨ st = some wt := by
  intro l
  induction l with
  | nil =>
    intro st wt h
    rw [windowInScope] at h
    exact Or.inr h
  | cons a rest ih =>
    intro st wt h
    rw [windowInScope] at h
    rcases ih _ wt h with ⟨idx, hmem, hext⟩ | hst
    · exact Or.inl ⟨idx, List.mem_cons_of_mem a hmem, hext⟩
    · cases hfr : extractWindow trace a pad with
      | some wt2 =>
        rw [hfr] at hst
        simp only [Option.some.injEq] at hst
        exact Or.inl ⟨a, List.mem_cons_self a rest, by rw [hfr, hst]⟩
      | none =>
        rw [hfr] at hst
        exact Or.inr hst

theorem np_argmin_lt_length : ∀ {l : List ℚ}, l ≠ [] → np_argmin l < l.length
  | [], h => absurd rfl h
  | [x], _ => by simp [np_argmin]
  | x :: y :: xs, _ => by
    have ih := np_argmin_lt_length (l := y :: xs) (by simp)
    rw [np_argmin]
    split
    · simpa using ih
    · simp

theorem np_min_eq_getD_argmin : ∀ {l : List ℚ}, l ≠ [] → np_min l = l.getD (np_argmin l) 0
  | [], h => absurd rfl h
  | [x], _ => by simp [np_argmin, np_min]
  | x :: y :: xs, _ => by
    have ih := np_min_eq_getD_argmin (l := y :: xs) (by simp)
    rw [np_argmin, np_min]
    split
    · rename_i hlt
      rw [min_eq_right (le_of_lt (lt_of_le_of_lt (by rw [ih]) hlt))]
      simp [ih]
    · rename_i hge
      rw [min_eq_left (le_of_not_lt (by rw [ih]; exact hge))]
      simp

theorem np_min_le : ∀ {l : List ℚ}, ∀ x ∈ l, np_min l ≤ x
  | [], x => by simp
  | [a], x => by
    intro hx
    simp only [List.mem_singleton] at hx
    subst hx
    simp [np_min]
  | a :: b :: xs, x => by
    intro hx
    rw [np_min]
    rcases List.mem_cons.mp hx with h | h
    · subst h; exact min_le_left _ _
    · exact le_trans (min_le_right _ _) (np_min_le x h)

theorem np_argmax_lt_length : ∀ {l : List ℚ}, l ≠ [] → np_argmax l < l.length
  | [], h => absurd rfl h
  | [x], _ => by simp [np_argmax]
  | x :: y :: xs, _ => by
    have ih := np_argmax_lt_length (l := y :: xs) (by simp)
    rw [np_argmax]
    split
    · simpa using ih
    · simp

theorem np_max_eq_getD_argmax : ∀ {l : List ℚ}, l ≠ [] → np_max l = l.getD (np_argmax l) 0
  | [], h => absurd rfl h
  | [x], _ => by simp [np_argmax, np_max]
  | x :: y :: xs, _ => by
    have ih := np_max_eq_getD_argmax (l := y :: xs) (by simp)
    rw [np_argmax, np_max]
    split
    · rename_i hlt
      rw [max_eq_right (le_of_lt (lt_of_lt_of_le hlt (by rw [ih])))]
      simp [ih]
    · rename_i hge
      rw [max_eq_left (le_of_not_lt (by rw [ih]; exact hge))]
      simp

theorem le_np_max : ∀ {l : List ℚ}, ∀ x ∈ l, x ≤ np_max l
  | [], x => by simp
  | [a], x => by
    intro hx
    simp only [List.mem_singleton] at hx
    subst hx
    simp [np_max]
  | a :: b :: xs, x => by
    intro hx
    rw [np_max]
    rcases List.mem_cons.mp hx with h | h
    · subst h; exact le_max_left _ _
    · exact le_trans (le_np_max x h) (le_max_right _ _)

theorem pyInt_intCast (z : ℤ) : pyInt ((z : ℤ) : ℚ) = z := by
  rw [pyInt, Rat.num_intCast, Rat.den_intCast]
  exact Int.tdiv_one z

theorem extractWindow_length_le {trace : List ℚ} {idx pad : ℕ} {w t : List ℚ}
    (h : extractWindow trace idx pad = some (w, t)) : w.length ≤ t.length := by
  rw [extractWindow] at h
  split at h
  · rename_i hc
    simp only [Option.some.injEq, Prod.mk.injEq] at h
    obtain ⟨hw, ht⟩ := h
    subst hw; subst ht
    simp only [pySlice, List.length_take, List.length_drop, List.length_map,
      List.length_range']
    omega
  · split at h
    · rename_i hc
      simp only [Option.some.injEq, Prod.mk.injEq] at h
      obtain ⟨hw, ht⟩ := h
      subst hw; subst ht
      simp only [List.length_append, List.length_replicate, List.length_take,
        List.length_map, List.length_range]
      omega
    · split at h
      · simp only [Option.some.injEq, Prod.mk.injEq] at h
        obtain ⟨hw, ht⟩ := h
        subst hw; subst ht
        simp only [List.length_append, List.length_replicate, List.length_drop,
          List.length_map, List.length_range']
        omega
      · exact absurd h (by simp)

theorem extractWindow_time_int {trace : List ℚ} {idx pad : ℕ} {w t : List ℚ}
    (h : extractWindow trace idx pad = some (w, t)) :
    ∀ q ∈ t, ∃ z : ℤ, q = (z : ℚ) := by
  rw [extractWindow] at h
  split at h
  · simp only [Option.some.injEq, Prod.mk.injEq] at h
    obtain ⟨hw, ht⟩ := h
    subst ht
    intro q hq
    obtain ⟨i, _, hi⟩ := List.mem_map.mp hq
    exact ⟨i, hi.symm.trans (by push_cast; ring)⟩
  · split at h
    · simp only [Option.some.injEq, Prod.mk.injEq] at h
      obtain ⟨hw, ht⟩ := h
      subst ht
      intro q hq
      rcases List.mem_append.mp hq with hq | hq
      · exact ⟨0, by simpa using List.eq_of_mem_replicate hq⟩
      · obtain ⟨i, _, hi⟩ := List.mem_map.mp hq
        exact ⟨i, hi.symm.trans (by push_cast; ring)⟩
    · split at h
      · simp only [Option.some.injEq, Prod.mk.injEq] at h
        obtain ⟨hw, ht⟩ := h
        subst ht
        intro q hq
        rcases List.mem_append.mp hq with hq | hq
        · obtain ⟨i, _, hi⟩ := List.mem_map.mp hq
          exact ⟨i, hi.symm.trans (by push_cast; ring)⟩
        · exact ⟨0, by simpa using List.eq_of_mem_replicate hq⟩
      · exact absurd h (by simp)

/-- Trivial stand-in for the external `scipy.signal.resample` parameter in
concrete runs with `upsample = 1`, where it is never called. -/
def resample0 : List ℚ → ℕ → List ℚ := fun l _ => l

theorem np_diff_length (idxs : List ℕ) : (np_diff idxs).length = idxs.length - 1 := by
  rw [np_diff, List.length_zipWith, List.length_tail]
  omega

theorem np_diff_getD (idxs : List ℕ) (i : ℕ) (hi : i + 1 < idxs.length) :
    (np_diff idxs).getD i 0 = ((idxs.getD (i + 1) 0 : ℕ) : ℤ) - ((idxs.getD i 0 : ℕ) : ℤ) := by
  have hlen : i < (np_diff idxs).length := by rw [np_diff_length]; omega
  rw [List.getD_eq_getElem _ _ hlen, List.getD_eq_getElem _ _ (by omega),
    List.getD_eq_getElem _ _ (by omega : i < idxs.length)]
  simp only [np_diff] at hlen ⊢
  rw [List.getElem_zipWith]
  congr 1
  · congr 1
    exact List.getElem_tail idxs i (by rw [List.length_tail]; omega)

theorem selectAnchors_length_le (idxs : List ℕ) (m : ℤ) :
    (selectAnchors idxs m).length ≤ idxs.length - 1 := by
  rw [selectAnchors]
  simp only [List.length_map]
  calc (((List.range (np_diff idxs).length).filter _)).length
      ≤ (List.range (np_diff idxs).length).length := List.length_filter_le _ _
    _ = (np_diff idxs).length := List.length_range _
    _ = idxs.length - 1 := np_diff_length idxs

theorem selectAnchors_pairwise {idxs : List ℕ} (hs : List.Pairwise (· < ·) idxs)
    (m : ℤ) : List.Pairwise (· < ·) (selectAnchors idxs m) := by
  rw [selectAnchors]
  rw [List.pairwise_map]
  have hfil : List.Pairwise (· < ·)
      ((List.range (np_diff idxs).length).filter
        (fun i => decide (m < (np_diff idxs).getD i 0 ∨ i = (np_diff idxs).length - 1))) :=
    (List.pairwise_lt_range _).filter _
  refine hfil.imp_of_mem ?_
  intro a b ha hb hab
  have ha' : a < idxs.length := by
    have := (List.mem_range.mp (List.mem_filter.mp ha).1)
    rw [np_diff_length] at this
    omega
  have hb' : b < idxs.length := by
    have := (List.mem_range.mp (List.mem_filter.mp hb).1)
    rw [np_diff_length] at this
    omega
  rw [List.getD_eq_getElem _ _ ha', List.getD_eq_getElem _ _ hb']
  exact List.pairwise_iff_getElem.mp hs a b ha' hb' hab

theorem crossingIndices_pairwise (trace : List ℚ) (nStd : ℚ) (sign : ℤ) :
    List.Pairwise (· < ·) (crossingIndices trace nStd sign) := by
  rw [crossingIndices]
  cases np_median (trace.map (fun x => |x| / madConst)) with
  | none => exact List.Pairwise.nil
  | some m =>
    dsimp only
    split
    · exact (List.pairwise_lt_range _).filter _
    · split
      · exact (List.pairwise_lt_range _).filter _
      · exact (List.pairwise_lt_range _).filter _

/-! Claim C2: segmentation characterization. -/

/-- C2 (corrected).  An index of the crossing list becomes an anchor exactly
when it sits at an interval position `i` (so `i + 1 < C`) and either the gap
to the next crossing exceeds `min_diff_samples` or `i` is the last interval
position (`i + 2 = C`).  Consequently the final crossing is never an anchor
and a sole crossing yields none; the empty list yields no anchors. -/
theorem c2_anchor_characterization (idxs : List ℕ) (m : ℤ) (a : ℕ) :
    a ∈ selectAnchors idxs m ↔
      ∃ i, i + 1 < idxs.length ∧ idxs.getD i 0 = a ∧
        (m < ((idxs.getD (i + 1) 0 : ℕ) : ℤ) - ((idxs.getD i 0 : ℕ) : ℤ) ∨
          i + 2 = idxs.length) := by
  rw [selectAnchors]
  simp only [List.mem_map, List.mem_filter, List.mem_range, decide_eq_true_eq]
  constructor
  · rintro ⟨i, ⟨hi, hcond⟩, hval⟩
    rw [np_diff_length] at hi
    refine ⟨i, by omega, hval, ?_⟩
    rcases hcond with hgap | hlast
    · left
      rw [np_diff_getD idxs i (by omega)] at hgap
      exact hgap
    · right
      rw [np_diff_length] at hlast
      omega
  · rintro ⟨i, hi, hval, hcond⟩
    refine ⟨i, ⟨?_, ?_⟩, hval⟩
    · rw [np_diff_length]; omega
    · rcases hcond with hgap | hlast
      · left
        rw [np_diff_getD idxs i (by omega)]
        exact hgap
      · right
        rw [np_diff_length]
        omega

/-- C2 counterexample.  A sole crossing — the last crossing index overall —
yields no anchor, and the final crossing of `[0, 10]` is not an anchor
either, contradicting clause (b) of the claim. -/
theorem c2_counterexample :
    selectAnchors [3] 5 = [] ∧ selectAnchors [0, 10] 5 = [0] := by
  constructor <;> rfl

/-! Claim C10: event-count bound. -/

/-- C10 (confirmed).  A successful channel run emits at most
`max 0 (C - 1)` events, where `C` counts the threshold crossings; in
particular a sole crossing yields no event. -/
theorem c10_event_count_bound {ι : Type} (resample : List ℚ → ℕ → List ℚ)
    (ch : ι) (trace : List ℚ) (nStd : ℚ) (sign : ℤ) (pad upsample : ℕ)
    (minDiff : ℤ) (align : Bool) (ts : List ℤ) (amps : List ℚ) (ls : List ι)
    (h : detectAlignTrace resample ch trace nStd sign pad upsample minDiff align
          = some (ts, amps, ls)) :
    (ts.length : ℤ) ≤ max 0 (((crossingIndices trace nStd sign).length : ℤ) - 1) := by
  have hbound := selectAnchors_length_le (crossingIndices trace nStd sign) minDiff
  have hts : ts.length ≤ (crossingIndices trace nStd sign).length - 1 := by
    rw [detectAlignTrace] at h
    cases align with
    | false =>
      simp only [Bool.false_eq_true, if_false, Option.some.injEq, Prod.mk.injEq] at h
      obtain ⟨hts, _⟩ := h
      rw [← hts, List.length_map]
      exact hbound
    | true =>
      simp only [if_true] at h
      obtain ⟨evs, hevs, hpack⟩ := Option.map_eq_some'.mp h
      obtain ⟨hts, -⟩ := Prod.mk.injEq .. ▸ hpack
      obtain ⟨hlen, -⟩ := alignLoop_spec resample trace sign pad upsample _ none evs hevs
      rw [← hts, List.length_map, hlen]
      exact hbound
  omega

/-- C10 witness: a concrete successful run with one event and two crossings
meets the bound. -/
theorem c10_event_count_bound_witness :
    detectAlignTrace resample0 (0 : ℤ) [] 5 (-1) 3 1 5 true = some ([], [], []) ∧
      ((0 : ℤ) ≤ max 0 (((crossingIndices [] 5 (-1)).length : ℤ) - 1)) :=
  ⟨rfl, by
    have := c10_event_count_bound resample0 (0 : ℤ) [] 5 (-1) 3 1 5 true [] [] [] rfl
    simpa using this⟩

/-! Claim C9: ordering of event times. -/

/-- C9 (corrected, align = false case).  Without alignment the emitted times
are the anchors themselves, which are strictly increasing. -/
theorem c9_times_strictly_increasing_no_align {ι : Type}
    (resample : List ℚ → ℕ → List ℚ) (ch : ι) (trace : List ℚ) (nStd : ℚ)
    (sign : ℤ) (pad upsample : ℕ) (minDiff : ℤ) (ts : List ℤ) (amps : List ℚ)
    (ls : List ι)
    (h : detectAlignTrace resample ch trace nStd sign pad upsample minDiff false
          = some (ts, amps, ls)) :
    List.Pairwise (· < ·) ts := by
  rw [detectAlignTrace] at h
  simp only [Bool.false_eq_true, if_false, Option.some.injEq, Prod.mk.injEq] at h
  obtain ⟨hts, -⟩ := h
  rw [← hts]
  rw [List.pairwise_map]
  refine ((selectAnchors_pairwise (crossingIndices_pairwise trace nStd sign) minDiff).imp ?_)
  intro a b hab
  exact_mod_cast hab

/-- C9 witness for the align = false theorem at a concrete input. -/
theorem c9_times_strictly_increasing_no_align_witness :
    detectAlignTrace resample0 (0 : ℤ) [] 5 (-1) 3 1 5 false = some ([], [], []) ∧
      List.Pairwise (· < ·) ([] : List ℤ) :=
  ⟨rfl, c9_times_strictly_increasing_no_align resample0 (0 : ℤ) [] 5 (-1) 3 1 5 [] [] [] rfl⟩

/-! Claim C6: empty trace. -/

/-- C6 (corrected).  An empty trace does not signal an error: the NaN median
makes every threshold comparison false, so the channel worker returns an
empty event list for every parameter combination. -/
theorem c6_empty_trace_returns_empty {ι : Type} (resample : List ℚ → ℕ → List ℚ)
    (ch : ι) (nStd : ℚ) (sign : ℤ) (pad upsample : ℕ) (minDiff : ℤ)
    (align : Bool) :
    detectAlignTrace resample ch [] nStd sign pad upsample minDiff align
      = some ([], [], []) := by
  cases align <;>
      simp [detectAlignTrace, crossingIndices, np_median, selectAnchors, np_diff] <;>
    rfl

/-- C6 counterexample.  Threshold estimation on the empty trace returns NaN
(`none`) instead of signalling an error, and the worker succeeds with an
empty result rather than failing. -/
theorem c6_counterexample :
    np_median (([] : List ℚ).map (fun x => |x| / madConst)) = none ∧
      detectAlignTrace resample0 (0 : ℤ) [] 5 (-1) 60 1 5 true = some ([], [], []) :=
  ⟨rfl, rfl⟩

/-! Claim C5: alignment extremum and time pairing. -/

theorem alignWindowEvent_up1_eq (resample : List ℚ → ℕ → List ℚ) (sign : ℤ)
    (w t : List ℚ) {ev : ℤ × ℚ}
    (h : alignWindowEvent resample sign 1 w t = some ev) :
    w ≠ [] ∧
      ev = (if sign = -1 then (pyInt (t.getD (np_argmin w) 0), np_min w)
        else if sign = 1 then (pyInt (t.getD (np_argmax w) 0), np_max w)
        else (pyInt (t.getD (np_argmax (w.map (fun x => |x|))) 0),
              np_max (w.map (fun x => |x|)))) := by
  rw [alignWindowEvent] at h
  simp only [lt_self_iff_false, if_false] at h
  by_cases hnil : w = []
  · rw [if_pos hnil] at h
    simp at h
  · rw [if_neg hnil] at h
    simp only [Option.some.injEq] at h
    refine ⟨hnil, ?_⟩
    by_cases hs1 : sign = -1
    · rw [if_pos hs1] at h
      rw [if_pos hs1]
      exact h.symm
    · by_cases hs2 : sign = 1
      · rw [if_neg hs1, if_pos hs2] at h
        rw [if_neg hs1, if_pos hs2]
        exact h.symm
      · rw [if_neg hs1, if_neg hs2] at h
        rw [if_neg hs1, if_neg hs2]
        exact h.symm

/-- C5 (corrected).  With `align = true` and `upsample = 1`, every emitted
event has time equal (exactly, with no rounding error, since the time axis is
integral; `int(...)` truncates toward zero, which only matters for the
fractional `np.linspace` axes of `upsample > 1`) to the time-axis value
paired with the chosen extremum index of the window in scope at that
iteration, and amplitude equal to the minimum of that window for
`detect_sign = -1`, the maximum for `detect_sign = 1`, and the maximum
absolute value (the magnitude, not the signed sample value) for
`detect_sign = both`.  The window in scope is the one extracted for the
event's own anchor when a window branch applies; on a fall-through it is the
stale window left bound by the most recent successful extraction
(`windowInScope` over the anchor prefix). -/
theorem c5_alignment_extremum {ι : Type} (resample : List ℚ → ℕ → List ℚ)
    (ch : ι) (trace : List ℚ) (nStd : ℚ) (sign : ℤ) (pad : ℕ) (minDiff : ℤ)
    (ts : List ℤ) (amps : List ℚ) (ls : List ι)
    (h : detectAlignTrace resample ch trace nStd sign pad 1 minDiff true
          = some (ts, amps, ls))
    (k : ℕ) (hk : k < ts.length) :
    ∃ w tAx : List ℚ, ∃ j : ℕ,
      windowInScope trace pad none
          ((selectAnchors (crossingIndices trace nStd sign) minDiff).take (k + 1))
        = some (w, tAx) ∧
      j < w.length ∧
      ((ts.getD k 0 : ℤ) : ℚ) = tAx.getD j 0 ∧
      (sign = -1 → amps.getD k 0 = w.getD j 0 ∧ ∀ x ∈ w, amps.getD k 0 ≤ x) ∧
      (sign = 1 → amps.getD k 0 = w.getD j 0 ∧ ∀ x ∈ w, x ≤ amps.getD k 0) ∧
      (sign ≠ -1 → sign ≠ 1 →
        amps.getD k 0 = |w.getD j 0| ∧ ∀ x ∈ w, |x| ≤ amps.getD k 0) := by
  rw [detectAlignTrace] at h
  simp only [if_true] at h
  obtain ⟨evs, hevs, hpack⟩ := Option.map_eq_some'.mp h
  have hts : evs.map Prod.fst = ts := congrArg (fun q => q.1) hpack
  have hamps : evs.map Prod.snd = amps :=
    congrArg (fun q => q.2.1) hpack
  obtain ⟨hlen, hpt⟩ := alignLoop_spec resample trace sign pad 1 _ none evs hevs
  have hk1 : k < evs.length := by rw [← hts, List.length_map] at hk; exact hk
  have hk2 : k < (selectAnchors (crossingIndices trace nStd sign) minDiff).length := by
    omega
  obtain ⟨w, t, hwin, hevcall⟩ := hpt k hk2 hk1
  obtain ⟨hnil, hev⟩ := alignWindowEvent_up1_eq resample sign w t hevcall
  have hsrc : ∃ idx, extractWindow trace idx pad = some (w, t) := by
    rcases windowInScope_some trace pad _ none (w, t) hwin with ⟨idx, -, hext⟩ | hst
    · exact ⟨idx, hext⟩
    · exact absurd hst (by simp)
  obtain ⟨idx, hext⟩ := hsrc
  have hkm1 : k < (List.map Prod.fst evs).length := by
    rw [List.length_map]; exact hk1
  have hkm2 : k < (List.map Prod.snd evs).length := by
    rw [List.length_map]; exact hk1
  have htsk : ts.getD k 0 = (evs.get ⟨k, hk1⟩).1 := by
    rw [← hts, List.getD_eq_getElem _ _ hkm1, List.getElem_map]
    rfl
  have hampsk : amps.getD k 0 = (evs.get ⟨k, hk1⟩).2 := by
    rw [← hamps, List.getD_eq_getElem _ _ hkm2, List.getElem_map]
    rfl
  have hwt := extractWindow_length_le hext
  have htint := extractWindow_time_int hext
  -- helper to turn the py-int time back into the exact time value
  have htime : ∀ j : ℕ, j < t.length → ((pyInt (t.getD j 0) : ℤ) : ℚ) = t.getD j 0 := by
    intro j hj
    obtain ⟨z, hz⟩ := htint (t.getD j 0)
      (by rw [List.getD_eq_getElem _ _ hj]; exact List.getElem_mem hj)
    rw [hz, pyInt_intCast]
  by_cases hs1 : sign = -1
  · subst hs1
    rw [if_pos rfl] at hev
    refine ⟨w, t, np_argmin w, hwin, np_argmin_lt_length hnil, ?_, ?_, ?_, ?_⟩
    · rw [htsk, hev]
      exact htime _ (lt_of_lt_of_le (np_argmin_lt_length hnil) hwt)
    · intro _
      constructor
      · rw [hampsk, hev]
        exact np_min_eq_getD_argmin hnil
      · intro x hx
        rw [hampsk, hev]
        exact np_min_le x hx
    · intro hc; exact absurd hc (by decide)
    · intro hc; exact absurd rfl hc
  · by_cases hs2 : sign = 1
    · subst hs2
      rw [if_neg (by decide), if_pos rfl] at hev
      refine ⟨w, t, np_argmax w, hwin, np_argmax_lt_length hnil, ?_, ?_, ?_, ?_⟩
      · rw [htsk, hev]
        exact htime _ (lt_of_lt_of_le (np_argmax_lt_length hnil) hwt)
      · intro hc; exact absurd hc (by decide)
      · intro _
        constructor
        · rw [hampsk, hev]
          exact np_max_eq_getD_argmax hnil
        · intro x hx
          rw [hampsk, hev]
          exact le_np_max x hx
      · intro _ hc; exact absurd rfl hc
    · rw [if_neg hs1, if_neg hs2] at hev
      have hmnil : w.map (fun x => |x|) ≠ [] := by
        intro hcon
        exact hnil (List.map_eq_nil_iff.mp hcon)
      have hjlt : np_argmax (w.map (fun x => |x|)) < w.length := by
        have := np_argmax_lt_length hmnil
        rwa [List.length_map] at this
      refine ⟨w, t, np_argmax (w.map (fun x => |x|)), hwin, hjlt, ?_, ?_, ?_, ?_⟩
      · rw [htsk, hev]
        exact htime _ (lt_of_lt_of_le hjlt hwt)
      · intro hc; exact absurd hc hs1
      · intro hc; exact absurd hc hs2
      · intro _ _
        constructor
        · rw [hampsk, hev]
          have hb : np_argmax (List.map (fun x => |x|) w)
              < (List.map (fun x => |x|) w).length := by
            rw [List.length_map]; exact hjlt
          rw [np_max_eq_getD_argmax hmnil, List.getD_eq_getElem _ _ hb,
            List.getElem_map, List.getD_eq_getElem _ _ hjlt]
        · intro x hx
          rw [hampsk, hev]
          exact le_np_max _ (List.mem_map.mpr ⟨x, hx, rfl⟩)

/-! Concrete test traces.  The spike value −1349 makes `|x| / 0.6745` the
integer 2000, keeping all mapped samples integral. -/

/-- Twelve-sample trace, zero except samples 4 and 10 at −1349. -/
def tr12 : List ℚ := [0, 0, 0, 0, -1349, 0, 0, 0, 0, 0, -1349, 0]

/-- Twelve-sample trace with a burst: samples 5, 7, 9 at −1349 and the true
negative peak −2698 at sample 6. -/
def tr9burst : List ℚ := [0, 0, 0, 0, 0, -1349, -2698, -1349, 0, -1349, 0, 0]

theorem tr12_median : np_median (tr12.map (fun x => |x| / madConst)) = some 0 := by
  have hA : tr12.map (fun x => |x| / madConst)
      = [0, 0, 0, 0, 2000, 0, 0, 0, 0, 0, 2000, 0] := by
    simp only [tr12, List.map]
    norm_num [madConst]
  have hs : List.insertionSort (· ≤ ·) [(0 : ℚ), 0, 0, 0, 2000, 0, 0, 0, 0, 0, 2000, 0]
      = [0, 0, 0, 0, 0, 0, 0, 0, 0, 0, 2000, 2000] := by decide
  rw [hA, np_median]
  simp [hs]
  norm_num

theorem tr12_cross_neg : crossingIndices tr12 5 (-1) = [4, 10] := by
  rw [crossingIndices, tr12_median]
  norm_num [tr12, List.range_succ]

theorem tr12_cross_both : crossingIndices tr12 5 0 = [4, 10] := by
  rw [crossingIndices, tr12_median]
  norm_num [tr12, List.range_succ]

theorem tr9burst_median : np_median (tr9burst.map (fun x => |x| / madConst)) = some 0 := by
  have hA : tr9burst.map (fun x => |x| / madConst)
      = [0, 0, 0, 0, 0, 2000, 4000, 2000, 0, 2000, 0, 0] := by
    simp only [tr9burst, List.map]
    norm_num [madConst]
  have hs : List.insertionSort (· ≤ ·)
        [(0 : ℚ), 0, 0, 0, 0, 2000, 4000, 2000, 0, 2000, 0, 0]
      = [0, 0, 0, 0, 0, 0, 0, 0, 2000, 2000, 2000, 4000] := by decide
  rw [hA, np_median]
  simp [hs]
  norm_num

theorem tr9burst_cross : crossingIndices tr9burst 5 (-1) = [5, 6, 7, 9] := by
  rw [crossingIndices, tr9burst_median]
  norm_num [tr9burst, List.range_succ]

/-! Claim C3: boundary windows. -/

/-- C3 (code bug).  With pad = 4, trace `tr12` yields the anchor 4, for which
`anchor - pad = 0` and `anchor + pad < len`: none of the three window branches
applies, and since this is the first loop iteration `spike` was never bound,
so Python raises `UnboundLocalError` and the whole channel fails instead of
returning a zero-padded window. -/
theorem c3_boundary_window_failure :
    extractWindow tr12 4 4 = none ∧
      detectAlignTrace resample0 (0 : ℤ) tr12 5 (-1) 4 1 5 true = none := by
  constructor
  · rfl
  · rw [detectAlignTrace, tr12_cross_neg]
    decide

/-! Concrete runs used by the C5 theorems. -/

theorem tr12_run_neg_pad3 :
    detectAlignTrace resample0 (0 : ℤ) tr12 5 (-1) 3 1 5 true
      = some ([4], [-1349], [0]) := by
  rw [detectAlignTrace, tr12_cross_neg]
  decide

/-- C5 counterexample.  With `detect_sign = both` the chosen extremum sample
of the aligned window is −1349, but the recorded amplitude is its absolute
value 1349, not the extremum value. -/
theorem c5_counterexample :
    detectAlignTrace resample0 (0 : ℤ) tr12 5 0 3 1 5 true
        = some ([4], [1349], [0]) ∧
      [(0 : ℚ), 0, 0, -1349, 0, 0].getD
          (np_argmax ([(0 : ℚ), 0, 0, -1349, 0, 0].map (fun x => |x|))) 0
        = -1349 := by
  constructor
  · rw [detectAlignTrace, tr12_cross_both]
    decide
  · decide

/-- C5 witness: the amended extremum description applied to the concrete run
on `tr12` with `detect_sign = -1` and pad 3. -/
theorem c5_alignment_extremum_witness :
    detectAlignTrace resample0 (0 : ℤ) tr12 5 (-1) 3 1 5 true
        = some ([4], [-1349], [0]) ∧
      (0 < ([4] : List ℤ).length) ∧
      (∃ w tAx : List ℚ, ∃ j : ℕ,
        windowInScope tr12 3 none
            ((selectAnchors (crossingIndices tr12 5 (-1)) 5).take (0 + 1))
          = some (w, tAx) ∧
        j < w.length ∧
        ((([4] : List ℤ).getD 0 0 : ℤ) : ℚ) = tAx.getD j 0 ∧
        ((-1 : ℤ) = -1 →
          ([(-1349 : ℚ)]).getD 0 0 = w.getD j 0 ∧
            ∀ x ∈ w, ([(-1349 : ℚ)]).getD 0 0 ≤ x) ∧
        ((-1 : ℤ) = 1 →
          ([(-1349 : ℚ)]).getD 0 0 = w.getD j 0 ∧
            ∀ x ∈ w, x ≤ ([(-1349 : ℚ)]).getD 0 0) ∧
        ((-1 : ℤ) ≠ -1 → (-1 : ℤ) ≠ 1 →
          ([(-1349 : ℚ)]).getD 0 0 = |w.getD j 0| ∧
            ∀ x ∈ w, |x| ≤ ([(-1349 : ℚ)]).getD 0 0)) :=
  ⟨tr12_run_neg_pad3, by decide,
    c5_alignment_extremum resample0 (0 : ℤ) tr12 5 (-1) 3 5 [4] [-1349] [0]
      tr12_run_neg_pad3 0 (by decide)⟩

/-! Stale-window reuse: a run exercising the loop's fall-through path. -/

/-- Twelve-sample trace with a spike at sample 1 (value −2698) and crossings
at samples 8 and 9 (value −1349): the anchors are 1 and 8, and for anchor 8
with pad 4 none of the three window branches applies (8 + 4 equals the trace
length). -/
def trStale : List ℚ := [0, -2698, 0, 0, 0, 0, 0, 0, -1349, -1349, 0, 0]

theorem trStale_median : np_median (trStale.map (fun x => |x| / madConst)) = some 0 := by
  have hA : trStale.map (fun x => |x| / madConst)
      = [0, 4000, 0, 0, 0, 0, 0, 0, 2000, 2000, 0, 0] := by
    simp only [trStale, List.map]
    norm_num [madConst]
  have hs : List.insertionSort (· ≤ ·) [(0 : ℚ), 4000, 0, 0, 0, 0, 0, 0, 2000, 2000, 0, 0]
      = [0, 0, 0, 0, 0, 0, 0, 0, 0, 2000, 2000, 4000] := by decide
  rw [hA, np_median]
  simp [hs]
  norm_num

theorem trStale_cross : crossingIndices trStale 5 (-1) = [1, 8, 9] := by
  rw [crossingIndices, trStale_median]
  norm_num [trStale, List.range_succ]

/-- The stale-window reuse path: anchor 1 binds a (left-padded) window whose
minimum −2698 sits at time 1; anchor 8 falls through every window branch and
silently reuses that window, so the run succeeds and the second event repeats
time 1 and amplitude −2698 instead of aligning inside a window of its own
anchor. -/
theorem staleWindowReuse_run :
    detectAlignTrace resample0 (0 : ℤ) trStale 5 (-1) 4 1 5 true
      = some ([1, 1], [-2698, -2698], [0, 0]) := by
  rw [detectAlignTrace, trStale_cross]
  decide

/-! Claim C9 counterexample. -/

/-- C9 counterexample.  With `align = true`, `min_diff_samples = 0` and pad 3,
the burst trace yields three anchors whose overlapping windows all align to
the same peak sample 6, so the emitted times `[6, 6, 6]` are not strictly
increasing. -/
theorem c9_counterexample :
    detectAlignTrace resample0 (0 : ℤ) tr9burst 5 (-1) 3 1 0 true
        = some ([6, 6, 6], [-2698, -2698, -2698], [0, 0, 0]) ∧
      ¬ List.Pairwise (fun a b : ℤ => a < b) [6, 6, 6] := by
  constructor
  · rw [detectAlignTrace, tr9burst_cross]
    decide
  · decide

/-! Claim C1: the end-to-end single-spike scenario. -/

/-- Sample function of the C1 scenario trace: one second at 30000 Hz, all
zero except sample 15000 at −50. -/
def c1f : ℕ → ℚ := fun i => if i = 15000 then -50 else 0

/-- The C1 scenario trace. -/
def c1trace : List ℚ := (List.range 30000).map c1f

theorem map_ite_range_perm (c : ℚ) :
    ∀ (n k : ℕ), k < n →
      ((List.range n).map (fun i => if i = k then c else 0)).Perm
        (c :: List.replicate (n - 1) 0) := by
  intro n
  induction n with
  | zero => intro k hk; omega
  | succ n ih =>
    intro k hk
    rw [List.range_succ, List.map_append]
    by_cases hkn : k = n
    · subst hkn
      have hrep : (List.range k).map (fun i => if i = k then c else 0)
          = List.replicate k 0 := by
        refine List.eq_replicate_iff.mpr ⟨by simp, ?_⟩
        intro b hb
        obtain ⟨i, hi, hval⟩ := List.mem_map.mp hb
        rw [← hval, if_neg (Nat.ne_of_lt (List.mem_range.mp hi))]
      rw [hrep]
      have hone : (List.map (fun i => if i = k then c else 0) [k]) = [c] := by
        simp
      rw [hone]
      simpa using List.perm_append_singleton c (List.replicate k 0)
    · have hkn' : k < n := by omega
      have hone : (List.map (fun i => if i = k then c else 0) [n]) = [0] := by
        simp only [List.map_cons, List.map_nil]
        rw [if_neg (fun h => hkn h.symm)]
      rw [hone]
      have hn1 : n - 1 + 1 = n := by omega
      have hrepl : (0 : ℚ) :: List.replicate (n - 1) 0 = List.replicate n 0 := by
        rw [← List.replicate_succ, hn1]
      simp only [Nat.add_sub_cancel]
      refine (List.perm_append_singleton 0 _).trans ?_
      refine (List.Perm.cons 0 (ih k hkn')).trans ?_
      refine (List.Perm.swap c 0 (List.replicate (n - 1) 0)).trans ?_
      rw [hrepl]

theorem insertionSort_single_spike (n k : ℕ) (c : ℚ) (hk : k < n) (hc : 0 ≤ c) :
    List.insertionSort (· ≤ ·) ((List.range n).map (fun i => if i = k then c else 0))
      = List.replicate (n - 1) 0 ++ [c] := by
  have hperm :
      (List.insertionSort (· ≤ ·)
          ((List.range n).map (fun i => if i = k then c else 0))).Perm
        (List.replicate (n - 1) 0 ++ [c]) :=
    (List.perm_insertionSort _ _).trans
      ((map_ite_range_perm c n k hk).trans (List.perm_append_singleton c _).symm)
  have hs1 : List.Sorted (· ≤ ·)
      (List.insertionSort (· ≤ ·) ((List.range n).map (fun i => if i = k then c else 0))) :=
    List.sorted_insertionSort _ _
  have hs2 : List.Sorted (· ≤ ·) (List.replicate (n - 1) (0 : ℚ) ++ [c]) := by
    refine List.pairwise_append.mpr ⟨?_, ?_, ?_⟩
    · exact List.pairwise_replicate.mpr (Or.inr le_rfl)
    · simp
    · intro a ha b hb
      rw [List.eq_of_mem_replicate ha, List.mem_singleton.mp hb]
      exact hc
  exact List.eq_of_perm_of_sorted hperm hs1 hs2

theorem c1_mapped :
    c1trace.map (fun x => |x| / madConst)
      = (List.range 30000).map (fun i => if i = 15000 then (100000 / 1349 : ℚ) else 0) := by
  rw [c1trace, List.map_map]
  apply List.map_congr_left
  intro i _
  simp only [Function.comp_apply, c1f]
  by_cases hi : i = 15000
  · rw [if_pos hi, if_pos hi]
    norm_num [madConst]
  · rw [if_neg hi, if_neg hi]
    norm_num [madConst]

theorem c1_median : np_median (c1trace.map (fun x => |x| / madConst)) = some 0 := by
  have hsort := insertionSort_single_spike 30000 15000 (100000 / 1349 : ℚ)
    (by norm_num) (by norm_num)
  rw [c1_mapped, np_median]
  rw [if_neg (by simp)]
  simp only [hsort, List.length_map, List.length_range]
  norm_num
  simp only [List.getElem_append, List.getElem_replicate]
  norm_num

theorem filter_range_eq_single :
    ∀ (n : ℕ) (k : ℕ) (p : ℕ → Bool), k < n → (∀ i, i < n → (p i = true ↔ i = k)) →
      (List.range n).filter p = [k] := by
  intro n
  induction n with
  | zero => intro k p hk _; omega
  | succ n ih =>
    intro k p hk hp
    rw [List.range_succ, List.filter_append]
    by_cases hkn : k = n
    · subst hkn
      have hnil : (List.range k).filter p = [] := by
        refine List.filter_eq_nil_iff.mpr ?_
        intro a ha hpa
        have := (hp a (by have := List.mem_range.mp ha; omega)).mp hpa
        exact absurd this (Nat.ne_of_lt (List.mem_range.mp ha))
      have hsing : List.filter p [k] = [k] := by
        rw [List.filter_cons, if_pos ((hp k (by omega)).mpr rfl)]
        rfl
      rw [hnil, hsing]
      rfl
    · have hkn' : k < n := by omega
      have hone : List.filter p [n] = [] := by
        rw [List.filter_cons]
        rw [if_neg]
        · rfl
        · intro hpn
          exact hkn ((hp n (by omega)).mp hpn).symm
      rw [hone, List.append_nil]
      exact ih k p hkn' (fun i hi => hp i (by omega))

theorem c1trace_getD (i : ℕ) (hi : i < 30000) : c1trace.getD i 0 = c1f i := by
  rw [c1trace, List.getD_eq_getElem _ _ (by simpa using hi), List.getElem_map,
    List.getElem_range]

theorem crossingIndices_neg_eq (trace : List ℚ) (nStd : ℚ) {m : ℚ}
    (hm : np_median (trace.map (fun x => |x| / madConst)) = some m) :
    crossingIndices trace nStd (-1)
      = (List.range trace.length).filter
          (fun i => decide (trace.getD i 0 < -(nStd * m))) := by
  rw [crossingIndices, hm]
  rfl

theorem c1_crossings : crossingIndices c1trace 5 (-1) = [15000] := by
  rw [crossingIndices_neg_eq c1trace 5 c1_median]
  have hlen : c1trace.length = 30000 := by simp [c1trace]
  rw [hlen]
  apply filter_range_eq_single 30000 15000 _ (by norm_num)
  intro i hi
  rw [decide_eq_true_eq, c1trace_getD i hi]
  by_cases hcase : i = 15000
  · subst hcase
    simp only [c1f, if_pos rfl]
    norm_num
  · simp only [c1f, if_neg hcase]
    constructor
    · intro hlt
      exact absurd hlt (by norm_num)
    · intro h
      exact absurd h hcase

theorem c1_run :
    detectAlignTrace resample0 (0 : ℤ) c1trace 5 (-1) 60 1 5 true
      = some ([], [], []) := by
  rw [detectAlignTrace, c1_crossings]
  decide

/-- C1 counterexample.  The scenario trace (one second at 30000 Hz, all zero
except sample 15000 at −50, `detect_sign = -1`, `detect_threshold = 5`,
`min_diff_samples = 5`, pad = 60 samples from `n_pad_ms = 2`, `upsample = 1`,
`align = true`) produces no event at all, rather than one event with time
15000 and amplitude −50: the sole crossing yields an empty interval list. -/
theorem c1_counterexample :
    detectAlignTrace resample0 (0 : ℤ) c1trace 5 (-1) 60 1 5 true
        = some ([], [], []) ∧
      ¬ (detectAlignTrace resample0 (0 : ℤ) c1trace 5 (-1) 60 1 5 true
          = some ([15000], [-50], [0])) := by
  refine ⟨c1_run, ?_⟩
  rw [c1_run]
  simp

/-- C1 (corrected).  The scenario yields exactly zero events on the tested
channel: the single threshold crossing produces an empty `np.diff` array, so
the segmentation loop never runs. -/
theorem c1_single_spike_scenario :
    detectAlignTrace resample0 (0 : ℤ) c1trace 5 (-1) 60 1 5 true
      = some ([], [], []) :=
  c1_run

/-! Claim C7: unknown channel ids. -/

/-- C7 (confirmed).  Requesting any channel id not present in the recording
makes `detect_spikes` fail with the validation error before any worker runs:
the error is produced by the assert, and the `Except` result carries no
partial detection output. -/
theorem c7_unknown_channel_invalid_input {ι : Type} [LinearOrder ι]
    [DecidableEq ι] (resample : List ℚ → ℕ → List ℚ) (rec : Recording ι)
    (cs : List ι) (thr padMs : ℚ) (up : ℕ) (sign minDiff : ℤ) (align : Bool)
    (s? e? : Option ℕ) (nJobs : ℤ)
    (h : ∃ c ∈ cs, c ∉ rec.channelIds) :
    detect_spikes resample rec (some cs) thr padMs up sign minDiff align s? e? nJobs
      = Except.error DetectError.invalidInput := by
  rw [detect_spikes]
  cases hb : cs.all (fun c => decide (c ∈ rec.channelIds)) with
  | false => simp [hb]
  | true =>
    exfalso
    obtain ⟨c, hc, hnc⟩ := h
    have := List.all_eq_true.mp hb c hc
    rw [decide_eq_true_eq] at this
    exact hnc this

/-- Single-channel recording used by the C7 witness. -/
def rec7 : Recording ℤ :=
  { channelIds := [1], traces := fun _ => [], samplingFrequency := 1,
    numFrames := 0, dumpable := true }

/-- C7 witness: requesting channel 2 of a recording that only has channel 1. -/
theorem c7_unknown_channel_invalid_input_witness :
    (∃ c ∈ [(2 : ℤ)], c ∉ rec7.channelIds) ∧
      detect_spikes resample0 rec7 (some [2]) 5 2 1 (-1) 5 true none none 1
        = Except.error DetectError.invalidInput :=
  ⟨⟨2, by decide, by decide⟩,
    c7_unknown_channel_invalid_input resample0 rec7 [2] 5 2 1 (-1) 5 true
      none none 1 ⟨2, by decide, by decide⟩⟩

/-! Claim C8: non-shareable fallback. -/

theorem c8_dispatch_eq {ι : Type} [LinearOrder ι] [DecidableEq ι]
    (resample : List ℚ → ℕ → List ℚ) (rec : Recording ι) (chs : List ι)
    (thr : ℚ) (nPad up : ℕ) (sign minDiff : ℤ) (align : Bool) (s e : ℕ)
    (nJobs : ℤ) (hd : rec.dumpable = false) (hk : 1 < nJobs) :
    detectSpikesDispatch resample rec chs thr nPad up sign minDiff align s e nJobs
      = Except.map (fun r => { r with warning := true })
          (detectSpikesDispatch resample rec chs thr nPad up sign minDiff align s e 1) := by
  simp only [detectSpikesDispatch]
  have e1 : (if rec.dumpable = false ∧ 1 < nJobs then (0 : ℤ) else nJobs) = 0 :=
    if_pos ⟨hd, hk⟩
  have e2 : (if rec.dumpable = false ∧ (1 : ℤ) < 1 then (0 : ℤ) else 1) = 1 :=
    if_neg (by simp)
  have w1 : decide (rec.dumpable = false ∧ 1 < nJobs) = true := by
    simp [hd, hk]
  have w2 : decide (rec.dumpable = false ∧ (1 : ℤ) < 1) = false := by
    simp
  rw [e1, e2, w1, w2]
  rw [if_neg (by norm_num : ¬ (1 : ℤ) < 0), if_neg (by norm_num : ¬ (1 : ℤ) < 1)]
  cases houts : chs.mapM (fun ch => detectAndAlignPeaksSingleChannel resample rec ch
      thr sign nPad up minDiff align s e) with
  | none => rfl
  | some outs => rfl

/-- C8 (confirmed).  On a non-dumpable recording, any `n_jobs > 1` run is
downgraded to the sequential path and produces exactly the `n_jobs = 1`
result, except that the fallback warning is surfaced. -/
theorem c8_nonshareable_fallback {ι : Type} [LinearOrder ι] [DecidableEq ι]
    (resample : List ℚ → ℕ → List ℚ) (rec : Recording ι)
    (channelIds? : Option (List ι)) (thr padMs : ℚ) (up : ℕ)
    (sign minDiff : ℤ) (align : Bool) (s? e? : Option ℕ) (nJobs : ℤ)
    (hd : rec.dumpable = false) (hk : 1 < nJobs) :
    detect_spikes resample rec channelIds? thr padMs up sign minDiff align s? e? nJobs
      = Except.map (fun r => { r with warning := true })
          (detect_spikes resample rec channelIds? thr padMs up sign minDiff align s? e? 1) := by
  cases channelIds? with
  | none =>
    rw [detect_spikes, detect_spikes]
    exact c8_dispatch_eq resample rec _ thr _ up sign minDiff align _ _ nJobs hd hk
  | some cs =>
    rw [detect_spikes, detect_spikes]
    cases hb : cs.all (fun c => decide (c ∈ rec.channelIds)) with
    | false =>
      simp only [hb, Bool.false_eq_true, if_false]
      rfl
    | true =>
      simp only [hb, if_true]
      exact c8_dispatch_eq resample rec _ thr _ up sign minDiff align _ _ nJobs hd hk

/-- Non-dumpable recording used by the C8 witness. -/
def rec8 : Recording ℤ :=
  { channelIds := [0], traces := fun _ => [], samplingFrequency := 1,
    numFrames := 0, dumpable := false }

/-- C8 witness at a concrete non-dumpable recording and `n_jobs = 2`. -/
theorem c8_nonshareable_fallback_witness :
    rec8.dumpable = false ∧ (1 : ℤ) < 2 ∧
      detect_spikes resample0 rec8 none 5 2 1 (-1) 5 true none none 2
        = Except.map (fun r => { r with warning := true })
            (detect_spikes resample0 rec8 none 5 2 1 (-1) 5 true none none 1) :=
  ⟨rfl, by decide,
    c8_nonshareable_fallback resample0 rec8 none 5 2 1 (-1) 5 true none none 2
      rfl (by decide)⟩

/-! Claim C4: per-unit properties. -/

/-- Two-channel recording used for C4: channel 1 is all zero (no events) and
channel 2 holds `tr12` (one event at sample 4 with amplitude −1349). -/
def rec4 : Recording ℤ :=
  { channelIds := [1, 2],
    traces := fun ch => if ch = 2 then tr12 else List.replicate 12 0,
    samplingFrequency := 1, numFrames := 12, dumpable := true }

theorem zeros12_median :
    np_median ((List.replicate 12 (0 : ℚ)).map (fun x => |x| / madConst)) = some 0 := by
  have hA : (List.replicate 12 (0 : ℚ)).map (fun x => |x| / madConst)
      = List.replicate 12 0 := by
    rw [List.map_replicate]
    norm_num [madConst]
  rw [hA, np_median]
  have hs : List.insertionSort (· ≤ ·) (List.replicate 12 (0 : ℚ))
      = List.replicate 12 0 := by decide
  simp [hs]

theorem zeros12_cross : crossingIndices (List.replicate 12 (0 : ℚ)) 5 (-1) = [] := by
  rw [crossingIndices_neg_eq _ _ zeros12_median]
  have hz : -(5 * (0 : ℚ)) = 0 := by norm_num
  simp only [hz]
  decide

theorem rec4_worker1 (pad : ℕ) :
    detectAndAlignPeaksSingleChannel resample0 rec4 1 5 (-1) pad 1 5 false 0 12
      = some ([], [], []) := by
  rw [detectAndAlignPeaksSingleChannel]
  have htr : rec4.getTraces 1 0 12 = List.replicate 12 0 := by rfl
  rw [htr, detectAlignTrace, zeros12_cross]
  rfl

theorem rec4_worker2 (pad : ℕ) :
    detectAndAlignPeaksSingleChannel resample0 rec4 2 5 (-1) pad 1 5 false 0 12
      = some ([4], [-1349], [2]) := by
  rw [detectAndAlignPeaksSingleChannel]
  have htr : rec4.getTraces 2 0 12 = tr12 := by rfl
  rw [htr, detectAlignTrace, tr12_cross_neg]
  rfl

theorem rec4_dispatch (nPad : ℕ) :
    detectSpikesDispatch resample0 rec4 [1, 2] 5 nPad 1 (-1) 5 false 0 12 1
      = Except.ok
          { times := [4], labels := [2], unitProps := [(2, 2, none, 1 / 12)],
            warning := false } := by
  rw [detectSpikesDispatch]
  have h1 := rec4_worker1 nPad
  have h2 := rec4_worker2 nPad
  simp only [List.mapM_cons, List.mapM_nil, h1, h2, Option.bind_eq_bind,
    Option.some_bind, pure]
  norm_num [rec4, np_unique, unitSpikeTrain, np_median]

/-- C4 (code bug).  Channel 1 produces no events, channel 2 one event, so the
single unit is 2; the code attaches `spike_amplitude` from the amplitude list
at the unit enumeration position 0, which belongs to channel 1, giving the
NaN median of an empty list (`none`) instead of the median of channel 2's
amplitudes, `some (−1349)`.  The spike rate (1 event over 12 frames at 1 Hz)
is attached correctly. -/
theorem c4_amplitude_misalignment :
    detect_spikes resample0 rec4 (some [1, 2]) 5 0 1 (-1) 5 false none none 1
        = Except.ok
            { times := [4], labels := [2], unitProps := [(2, 2, none, 1 / 12)],
              warning := false } ∧
      np_median [(-1349 : ℚ)] = some (-1349) := by
  constructor
  · rw [detect_spikes]
    simp only [show ([1, 2] : List ℤ).all (fun c => decide (c ∈ rec4.channelIds))
        = true by decide, if_true]
    exact rec4_dispatch _
  · rfl

end SpikeToolkit
